import Mathlib

/-!
Shallow embedding of the hybrid lexical retrieval engine in `src/main.py`.

Text is modelled as lists of characters (Python strings index and slice by
code point).  Floating-point scores are modelled as exact real numbers, so
the transcendental `ln` and `sqrt` of the scoring formulas are `Real.log`
and `Real.sqrt`; a real number has no NaN or infinity, and every division
the code performs behind a positivity guard is reflected by the same guard
here.

The in-repository code (`preprocess_text`, `build_bm25_model`'s
tokenization, and all of `hybrid_search`: BM25 max-normalization, the
50/50 score fusion, `np.argsort(..)[::-1][:top_k]` ranking, and snippet
assembly) is translated directly from `src/main.py`.  The scoring
internals of the two external libraries (sklearn's `TfidfVectorizer` /
`cosine_similarity` and rank_bm25's `BM25Okapi.get_scores`) are not part
of the repository; they are modelled from the specification (§4.2–§4.4):
regex token runs of length ≥ 2 with stopword removal, the top-5000
frequency/lexicographic vocabulary, smoothed idf with L2 row
normalization, and the Okapi BM25 sum with the zero-document-frequency
guard.  `np.argsort` is modelled as a stable ascending sort of indices
(ties in ascending index order), which is the observed deterministic
behaviour the ranking code relies on.
-/

/-- Text: a Python string as its list of code points. -/
abbrev Str := List Char

/-- Translation of `preprocess_text` (src/main.py line 71): lowercase only. -/
def preprocess_text (text : Str) : Str := text.map Char.toLower

/-- Helper for `pySplit`: accumulates the current word (reversed) while
scanning; mirrors Python `str.split()` with no argument (split on
whitespace runs, discarding empty pieces). -/
def splitWsAux : Str → Str → List Str
  | acc, [] => if acc = [] then [] else [acc.reverse]
  | acc, c :: rest =>
    if c.isWhitespace then
      (if acc = [] then splitWsAux [] rest else acc.reverse :: splitWsAux [] rest)
    else splitWsAux (c :: acc) rest

/-- Python `s.split()` (whitespace split, no empty tokens), as used by
`build_bm25_model` (line 124) and `hybrid_search` (line 158). -/
def pySplit (s : Str) : List Str := splitWsAux [] s

/-- Helper for `alnumRuns`: maximal runs of alphanumeric characters. -/
def alnumRunsAux : Str → Str → List Str
  | acc, [] => if acc = [] then [] else [acc.reverse]
  | acc, c :: rest =>
    if c.isAlphanum then alnumRunsAux (c :: acc) rest
    else (if acc = [] then alnumRunsAux [] rest else acc.reverse :: alnumRunsAux [] rest)

/-- Maximal alphanumeric runs of a string. -/
def alnumRuns (s : Str) : List Str := alnumRunsAux [] s

/-- Modelled from the spec (§4.2), standing in for sklearn's analyzer,
which is not part of the repository: case-fold, split into alphanumeric
runs of length ≥ 2, and remove the stopword list `stop` (the spec leaves
the concrete English stopword list unspecified, so it is a parameter). -/
def tfidf_tokenize (stop : List Str) (s : Str) : List Str :=
  ((alnumRuns (s.map Char.toLower)).filter (fun w => 2 ≤ w.length)).filter
    (fun w => decide (w ∉ stop))

/-- Python slice `l[:k]` for an arbitrary integer `k`: non-negative `k`
takes the first `k` elements, negative `k` drops the last `-k`. -/
def pyTake {α : Type} (l : List α) (k : ℤ) : List α :=
  if 0 ≤ k then l.take k.toNat else l.take (l.length - (-k).toNat)

/-- Python `str.strip()`: remove leading and trailing whitespace. -/
def strip (s : Str) : Str :=
  ((s.dropWhile Char.isWhitespace).reverse.dropWhile Char.isWhitespace).reverse

/-- The ellipsis marker appended to truncated snippets (line 182). -/
def ellipsis : Str := ['.', '.', '.']

/-- Snippet assembly of `hybrid_search` (lines 180–182):
`snippet = content[:200].strip()`, then append `...` when the original
content exceeds 200 characters. -/
def makeSnippet (content : Str) : Str :=
  strip (content.take 200) ++ (if 200 < content.length then ellipsis else [])

/-- Maximum of a list of reals, 0 for the empty list.  Stands in for
`numpy.max` in the guard of lines 162–165; on the lists the code feeds it
(non-empty, all entries non-negative) the two agree, and the branch taken
is the same in every case. -/
noncomputable def listMax (l : List ℝ) : ℝ := l.foldr max 0

/-- Lexicographic order on strings (ascending), used by the vocabulary
tie-break. -/
def lexLe : Str → Str → Bool
  | [], _ => true
  | _ :: _, [] => false
  | a :: as, b :: bs => if a < b then true else if b < a then false else lexLe as bs

/-- Vocabulary comparator: frequency in the corpus token list `toks`
descending, ties by ascending lexicographic order. -/
def vocabLe (toks : List Str) (a b : Str) : Bool :=
  decide (toks.count b < toks.count a) ||
    (decide (toks.count a = toks.count b) && lexLe a b)

/-- All tokens of the corpus under the TF-IDF tokenizer, concatenated in
document order; `corpusTokens.count t` is the corpus-wide term frequency
of `t`. -/
def corpusTokens (stop : List Str) (documents : List Str) : List Str :=
  (documents.map (tfidf_tokenize stop)).flatten

/-- Modelled from the spec (§4.2), standing in for sklearn's
`max_features=5000` vocabulary selection, which is not part of the
repository: keep the top 5000 distinct terms by corpus-wide term
frequency, ties broken lexicographically ascending. -/
def vocabOf (stop : List Str) (documents : List Str) : List Str :=
  ((corpusTokens stop documents).dedup.mergeSort
    (vocabLe (corpusTokens stop documents))).take 5000

/-- The TF-IDF side of the index: stopword list, fixed vocabulary, idf
per term, and one L2-normalized weight row per document (§3). -/
structure TfidfModel where
  stop : List Str
  vocab : List Str
  idf : Str → ℝ
  rows : List (List ℝ)

/-- Sum of squares of a vector. -/
def sumSq (v : List ℝ) : ℝ := (v.map (fun x => x * x)).sum

/-- Modelled from the spec (§4.2/§4.4): L2 normalization; the zero vector
is left unchanged (sklearn's `normalize` leaves zero rows zero). -/
noncomputable def l2normalize (v : List ℝ) : List ℝ :=
  if sumSq v = 0 then v else v.map (fun x => x / Real.sqrt (sumSq v))

/-- Modelled from the spec (§4.2): the L2-normalized tf·idf weight vector
of a text over the fixed vocabulary. -/
noncomputable def tfidfWeights (stop : List Str) (vocab : List Str) (idf : Str → ℝ)
    (s : Str) : List ℝ :=
  l2normalize (vocab.map (fun t => (((tfidf_tokenize stop s).count t : ℝ)) * idf t))

/-- Translation of `build_tfidf_model` (lines 84–108); the vectorizer's
internals are modelled from the spec (§4.2): vocabulary capped at 5000
terms, smoothed `idf(t) = ln((1+N)/(1+df(t))) + 1`, L2-normalized rows. -/
noncomputable def build_tfidf_model (stop : List Str) (documents : List Str) : TfidfModel :=
  let toks := documents.map (tfidf_tokenize stop)
  let df : Str → ℕ := fun t => toks.countP (fun d => decide (t ∈ d))
  let idf : Str → ℝ := fun t =>
    Real.log ((1 + (documents.length : ℝ)) / (1 + (df t : ℝ))) + 1
  { stop := stop
    vocab := vocabOf stop documents
    idf := idf
    rows := documents.map (fun d => tfidfWeights stop (vocabOf stop documents) idf d) }

/-- Dot product of two vectors. -/
def dot (a b : List ℝ) : ℝ := (List.zipWith (fun x y => x * y) a b).sum

/-- Modelled from the spec (§4.4 Step 2): `vectorizer.transform` on the
query — tokenize with the TF-IDF tokenizer, weight by the stored idf,
L2-normalize. -/
noncomputable def transform (m : TfidfModel) (query : Str) : List ℝ :=
  tfidfWeights m.stop m.vocab m.idf query

/-- Modelled from the spec (§4.4 Step 2): `cosine_similarity(query_vector,
tfidf_matrix).flatten()` — rows and query vector are already
L2-normalized, so cosine similarity is the dot product per row. -/
noncomputable def cosineSimilarity (q : List ℝ) (rows : List (List ℝ)) : List ℝ :=
  rows.map (fun r => dot q r)

/-- The BM25 side of the index: the tokenized corpus (per-document token
lists); all statistics (tf, df, document length, average length) derive
from it (§3). -/
structure Bm25Model where
  tdocs : List (List Str)

/-- Translation of `build_bm25_model` (lines 111–131):
`tokenized_docs = [doc.lower().split() for doc in documents]`. -/
def build_bm25_model (documents : List Str) : Bm25Model :=
  ⟨documents.map (fun d => pySplit (d.map Char.toLower))⟩

/-- BM25 parameter `k1 = 1.5` (§3). -/
def bm25K1 : ℝ := 1.5

/-- BM25 parameter `b = 0.75` (§3). -/
def bm25B : ℝ := 0.75

/-- Document frequency of a term in the tokenized corpus. -/
def bm25Df (m : Bm25Model) (t : Str) : ℕ :=
  m.tdocs.countP (fun d => decide (t ∈ d))

/-- Modelled from the spec (§4.4 Step 3):
`idf(t) = ln((N - df(t) + 0.5)/(df(t) + 0.5) + 1)`. -/
noncomputable def bm25Idf (m : Bm25Model) (t : Str) : ℝ :=
  Real.log (((m.tdocs.length : ℝ) - (bm25Df m t : ℝ) + 0.5) / ((bm25Df m t : ℝ) + 0.5) + 1)

/-- Average document length of the tokenized corpus. -/
noncomputable def bm25Avgdl (m : Bm25Model) : ℝ :=
  (((m.tdocs.map List.length).sum : ℝ)) / ((m.tdocs.length : ℝ))

/-- Modelled from the spec (§4.4 Step 3), standing in for one term's
contribution inside rank_bm25's `get_scores` (not part of the
repository): a term absent from every document contributes zero (its idf
lookup yields nothing), otherwise the Okapi saturation formula applies to
the token-count tf of document `d`. -/
noncomputable def bm25TermFactor (m : Bm25Model) (t : Str) (d : List Str) : ℝ :=
  (if bm25Df m t = 0 then 0 else bm25Idf m t) *
    (((d.count t : ℝ)) * (bm25K1 + 1)) /
      (((d.count t : ℝ)) + bm25K1 * (1 - bm25B + bm25B * ((d.length : ℝ)) / bm25Avgdl m))

/-- Modelled from the spec (§4.4 Step 3), standing in for
`BM25Okapi.get_scores` (not part of the repository): iterate over the
query terms, accumulating each term's per-document contribution vector
into a running score vector that starts at zero. -/
noncomputable def get_scores (m : Bm25Model) (query : List Str) : List ℝ :=
  query.foldl
    (fun score q => List.zipWith (fun x y => x + y) score
      (m.tdocs.map (fun d => bm25TermFactor m q d)))
    (m.tdocs.map (fun _ => (0 : ℝ)))

/-- The raw BM25 score of document `d` exactly as the specification words
it (§4.4 Step 3): a sum over query terms, in which a term with zero
document frequency contributes exactly zero and every other term
contributes `idf(t) * (tf(t,d)*(k1+1)) / (tf(t,d) + k1*(1 - b +
b*docLen(d)/avgDocLength))`.  Stated separately from `get_scores` so the
two presentations can be compared. -/
noncomputable def bm25SpecScore (m : Bm25Model) (query : List Str) (d : ℕ) : ℝ :=
  (query.map (fun t =>
    if bm25Df m t = 0 then 0 else
      bm25Idf m t * ((((m.tdocs.getD d []).count t : ℝ)) * (bm25K1 + 1)) /
        ((((m.tdocs.getD d []).count t : ℝ)) +
          bm25K1 * (1 - bm25B + bm25B * (((m.tdocs.getD d []).length : ℝ)) / bm25Avgdl m)))).sum

/-- Translation of the BM25 normalization of `hybrid_search`
(lines 161–165): divide by the maximum only when it is strictly
positive, otherwise keep the raw scores. -/
noncomputable def normalize_bm25 (scores : List ℝ) : List ℝ :=
  if 0 < listMax scores then scores.map (fun x => x / listMax scores) else scores

/-- Translation of the score fusion of `hybrid_search` (line 168):
`combined_scores = 0.5 * tfidf_scores + 0.5 * bm25_scores_normalized`. -/
noncomputable def combined_of (t b : List ℝ) : List ℝ :=
  List.zipWith (fun x y => 0.5 * x + 0.5 * y) t b

/-- Comparator realizing `np.argsort` on a score list: ascending by
score, ties in ascending index order (stable argsort). -/
noncomputable def argLe (s : List ℝ) (i j : ℕ) : Bool :=
  decide (s.getD i 0 < s.getD j 0) ||
    (decide (s.getD i 0 = s.getD j 0) && decide (i ≤ j))

/-- Model of `np.argsort(s)`: the indices `0..s.length` sorted ascending
by score, equal scores in ascending index order. -/
noncomputable def argsort (s : List ℝ) : List ℕ :=
  (List.range s.length).mergeSort (argLe s)

/-- One search result record `(doc_index, title, snippet, combined_score)`
(line 186). -/
abbrev RankedResult := ℕ × Str × Str × ℝ

/-- The combined score vector `hybrid_search` computes for a query
(lines 150–168): TF-IDF cosine scores and max-normalized BM25 scores,
fused 50/50. -/
noncomputable def combinedScores (query : Str) (m : TfidfModel) (bm : Bm25Model) : List ℝ :=
  combined_of (cosineSimilarity (transform m (preprocess_text query)) m.rows)
    (normalize_bm25 (get_scores bm (pySplit (preprocess_text query))))

/-- Translation of `hybrid_search` (lines 134–188): compute the combined
scores, rank with `np.argsort(combined)[::-1][:top_k]`, and assemble
`(idx, title, snippet, score)` records from the original-case documents
and titles. -/
noncomputable def hybrid_search (query : Str) (m : TfidfModel) (bm : Bm25Model)
    (documents titles : List Str) (top_k : ℤ) : List RankedResult :=
  (pyTake (argsort (combinedScores query m bm)).reverse top_k).map (fun idx =>
    (idx, titles.getD idx [], makeSnippet (documents.getD idx []),
      (combinedScores query m bm).getD idx 0))

/-- The immutable index of §3: both models plus the corpus. -/
structure Index where
  tfidf : TfidfModel
  bm25 : Bm25Model
  documents : List Str
  titles : List Str

/-- Index construction as `main` performs it (lines 232–241): both models
are built over the preprocessed (lowercased) documents, while the
original-case documents and titles are kept for result assembly. -/
noncomputable def buildIndex (stop : List Str) (documents titles : List Str) : Index :=
  { tfidf := build_tfidf_model stop (documents.map preprocess_text)
    bm25 := build_bm25_model (documents.map preprocess_text)
    documents := documents
    titles := titles }

/-- The search operation over a built index (spec §6 `search`); it is
`hybrid_search` applied to the index's components (lines 283–291). -/
noncomputable def search (idx : Index) (query : Str) (top_k : ℤ) : List RankedResult :=
  hybrid_search query idx.tfidf idx.bm25 idx.documents idx.titles top_k

/-! ### Ranking infrastructure lemmas -/

lemma argLe_iff {s : List ℝ} {i j : ℕ} :
    argLe s i j = true ↔
      (s.getD i 0 < s.getD j 0 ∨ (s.getD i 0 = s.getD j 0 ∧ i ≤ j)) := by
  simp [argLe]

lemma argLe_trans (s : List ℝ) :
    ∀ a b c : ℕ, argLe s a b = true → argLe s b c = true → argLe s a c = true := by
  intro a b c hab hbc
  rw [argLe_iff] at hab hbc ⊢
  rcases hab with h | ⟨he, hle⟩ <;> rcases hbc with h' | ⟨he', hle'⟩
  · exact Or.inl (lt_trans h h')
  · exact Or.inl (he' ▸ h)
  · exact Or.inl (he ▸ h')
  · exact Or.inr ⟨he.trans he', le_trans hle hle'⟩

lemma argLe_total (s : List ℝ) :
    ∀ a b : ℕ, (argLe s a b || argLe s b a) = true := by
  intro a b
  simp only [Bool.or_eq_true, argLe_iff]
  rcases lt_trichotomy (s.getD a 0) (s.getD b 0) with h | h | h
  · exact Or.inl (Or.inl h)
  · rcases Nat.le_total a b with hab | hab
    · exact Or.inl (Or.inr ⟨h, hab⟩)
    · exact Or.inr (Or.inr ⟨h.symm, hab⟩)
  · exact Or.inr (Or.inl h)

lemma argsort_perm (s : List ℝ) : (argsort s).Perm (List.range s.length) :=
  List.mergeSort_perm _ _

lemma argsort_length (s : List ℝ) : (argsort s).length = s.length := by
  simpa using (argsort_perm s).length_eq

lemma mem_argsort {s : List ℝ} {i : ℕ} : i ∈ argsort s ↔ i < s.length := by
  rw [(argsort_perm s).mem_iff, List.mem_range]

lemma argsort_nodup (s : List ℝ) : (argsort s).Nodup :=
  (argsort_perm s).nodup_iff.mpr (List.nodup_range _)

lemma argsort_sorted (s : List ℝ) :
    (argsort s).Pairwise (fun i j => argLe s i j = true) :=
  List.sorted_mergeSort (argLe_trans s) (argLe_total s) _

lemma argsort_reverse_pairwise (s : List ℝ) :
    (argsort s).reverse.Pairwise
      (fun i j => s.getD j 0 < s.getD i 0 ∨ (s.getD i 0 = s.getD j 0 ∧ j < i)) := by
  have h1 : (argsort s).reverse.Pairwise (fun i j => argLe s j i = true) := by
    rw [List.pairwise_reverse]
    exact argsort_sorted s
  have h2 : (argsort s).reverse.Pairwise (fun i j => i ≠ j) :=
    (List.nodup_reverse.mpr (argsort_nodup s) : (argsort s).reverse.Nodup)
  refine (h1.and h2).imp ?_
  rintro i j ⟨hle, hne⟩
  rw [argLe_iff] at hle
  rcases hle with h | ⟨he, hji⟩
  · exact Or.inl h
  · exact Or.inr ⟨he.symm, lt_of_le_of_ne hji (Ne.symm hne)⟩

lemma argsort_const {s : List ℝ} {c : ℝ} (h : ∀ x ∈ s, x = c) :
    argsort s = List.range s.length := by
  have hmem : ∀ i ∈ argsort s, s.getD i 0 = c := by
    intro i hi
    have hlt : i < s.length := mem_argsort.mp hi
    rw [List.getD_eq_getElem s 0 hlt]
    exact h _ (List.getElem_mem hlt)
  have hs : List.Sorted (fun i j : ℕ => i ≤ j) (argsort s) := by
    refine List.Pairwise.imp_of_mem ?_ (argsort_sorted s)
    intro a b ha hb hab
    rw [argLe_iff] at hab
    rcases hab with hlt | ⟨_, hle⟩
    · rw [hmem a ha, hmem b hb] at hlt
      exact absurd hlt (lt_irrefl c)
    · exact hle
  have hr : List.Sorted (fun i j : ℕ => i ≤ j) (List.range s.length) :=
    (List.pairwise_lt_range _).imp fun hlt => le_of_lt hlt
  exact List.eq_of_perm_of_sorted (argsort_perm s) hs hr

lemma pyTake_length {α : Type} (l : List α) (k : ℤ) :
    (pyTake l k).length =
      if 0 ≤ k then min k.toNat l.length else l.length - (-k).toNat := by
  unfold pyTake
  by_cases h : 0 ≤ k
  · simp [h]
  · simp only [h, if_false, List.length_take]
    omega

lemma pyTake_sublist {α : Type} (l : List α) (k : ℤ) : (pyTake l k).Sublist l := by
  unfold pyTake
  by_cases h : 0 ≤ k <;> simp [h, List.take_sublist]

lemma pyTake_subset {α : Type} (l : List α) (k : ℤ) : pyTake l k ⊆ l :=
  (pyTake_sublist l k).subset

lemma pyTake_of_length_le {α : Type} (l : List α) (k : ℤ) (h : (l.length : ℤ) ≤ k) :
    pyTake l k = l := by
  have h0 : 0 ≤ k := le_trans (by positivity) h
  unfold pyTake
  rw [if_pos h0, List.take_of_length_le (by omega)]

lemma pyTake_zero {α : Type} (l : List α) : pyTake l 0 = [] := by
  simp [pyTake]

/-! ### Generic list lemmas -/

lemma zipWith_forall_mem {α β γ : Type} {f : α → β → γ}
    (P : α → Prop) (Q : β → Prop) (R : γ → Prop) :
    ∀ {a : List α} {b : List β}, (∀ x ∈ a, P x) → (∀ y ∈ b, Q y) →
      (∀ x y, P x → Q y → R (f x y)) → ∀ z ∈ List.zipWith f a b, R z := by
  intro a
  induction a with
  | nil => intro b _ _ _ z hz; simp at hz
  | cons x xs ih =>
    intro b ha hb h z hz
    cases b with
    | nil => simp at hz
    | cons y ys =>
      rw [List.zipWith_cons_cons] at hz
      rcases List.mem_cons.mp hz with hz | hz
      · subst hz
        exact h _ _ (ha x (List.mem_cons_self _ _)) (hb y (List.mem_cons_self _ _))
      · exact ih (fun u hu => ha u (List.mem_cons_of_mem _ hu))
          (fun u hu => hb u (List.mem_cons_of_mem _ hu)) h z hz

lemma listMax_nonneg (l : List ℝ) : 0 ≤ listMax l := by
  induction l with
  | nil => simp [listMax]
  | cons x xs ih =>
    simp only [listMax, List.foldr_cons]
    exact le_trans ih (le_max_right _ _)

lemma le_listMax {l : List ℝ} {x : ℝ} (h : x ∈ l) : x ≤ listMax l := by
  induction l with
  | nil => simp at h
  | cons y ys ih =>
    simp only [listMax, List.foldr_cons]
    rcases List.mem_cons.mp h with rfl | h
    · exact le_max_left _ _
    · exact le_trans (ih h) (le_max_right _ _)

lemma listMax_cons (x : ℝ) (xs : List ℝ) : listMax (x :: xs) = max x (listMax xs) := rfl

lemma listMax_eq_zero {l : List ℝ} (h : ∀ x ∈ l, x = 0) : listMax l = 0 := by
  induction l with
  | nil => simp [listMax]
  | cons x xs ih =>
    rw [listMax_cons, h x (List.mem_cons_self _ _),
      ih (fun y hy => h y (List.mem_cons_of_mem _ hy))]
    simp

/-! ### BM25 lemmas -/

lemma bm25Df_le_length (m : Bm25Model) (t : Str) : bm25Df m t ≤ m.tdocs.length :=
  List.countP_le_length _

lemma bm25Idf_nonneg (m : Bm25Model) (t : Str) : 0 ≤ bm25Idf m t := by
  unfold bm25Idf
  apply Real.log_nonneg
  have hdf : (bm25Df m t : ℝ) ≤ (m.tdocs.length : ℝ) := by
    exact_mod_cast bm25Df_le_length m t
  have hnum : (0 : ℝ) ≤ (m.tdocs.length : ℝ) - (bm25Df m t : ℝ) + 0.5 := by linarith
  have hden : (0 : ℝ) < (bm25Df m t : ℝ) + 0.5 := by positivity
  have := div_nonneg hnum (le_of_lt hden)
  linarith

lemma bm25Avgdl_nonneg (m : Bm25Model) : 0 ≤ bm25Avgdl m := by
  unfold bm25Avgdl
  positivity

lemma bm25TermFactor_nonneg (m : Bm25Model) (t : Str) (d : List Str) :
    0 ≤ bm25TermFactor m t d := by
  unfold bm25TermFactor
  have hidf : (0 : ℝ) ≤ (if bm25Df m t = 0 then 0 else bm25Idf m t) := by
    by_cases h : bm25Df m t = 0
    · simp [h]
    · simpa [h] using bm25Idf_nonneg m t
  have hnum : (0 : ℝ) ≤ ((d.count t : ℝ)) * (bm25K1 + 1) := by
    have : (0 : ℝ) ≤ (d.count t : ℝ) := Nat.cast_nonneg _
    have hk : (0 : ℝ) ≤ bm25K1 + 1 := by norm_num [bm25K1]
    exact mul_nonneg this hk
  have hden : (0 : ℝ) ≤
      ((d.count t : ℝ)) + bm25K1 * (1 - bm25B + bm25B * ((d.length : ℝ)) / bm25Avgdl m) := by
    have h1 : (0 : ℝ) ≤ (d.count t : ℝ) := Nat.cast_nonneg _
    have h2 : (0 : ℝ) ≤ bm25B * ((d.length : ℝ)) / bm25Avgdl m := by
      have := bm25Avgdl_nonneg m
      have hb : (0 : ℝ) ≤ bm25B := by norm_num [bm25B]
      positivity
    have h3 : (0 : ℝ) ≤ 1 - bm25B := by norm_num [bm25B]
    have hk : (0 : ℝ) ≤ bm25K1 := by norm_num [bm25K1]
    nlinarith
  exact div_nonneg (mul_nonneg hidf hnum) hden

lemma bm25TermFactor_zero_of_df_zero (m : Bm25Model) (t : Str) (d : List Str)
    (h : bm25Df m t = 0) : bm25TermFactor m t d = 0 := by
  unfold bm25TermFactor
  rw [if_pos h, zero_mul, zero_div]

lemma get_scores_foldl_length (m : Bm25Model) (q : List Str) :
    ∀ init : List ℝ, init.length = m.tdocs.length →
      (q.foldl (fun score t => List.zipWith (fun x y => x + y) score
        (m.tdocs.map (fun d => bm25TermFactor m t d))) init).length = m.tdocs.length := by
  induction q with
  | nil => intro init h; simpa using h
  | cons t ts ih =>
    intro init h
    simp only [List.foldl_cons]
    exact ih _ (by simp [h])

lemma get_scores_length (m : Bm25Model) (q : List Str) :
    (get_scores m q).length = m.tdocs.length := by
  unfold get_scores
  exact get_scores_foldl_length m q _ (by simp)

lemma get_scores_foldl_nonneg (m : Bm25Model) (q : List Str) :
    ∀ init : List ℝ, (∀ x ∈ init, 0 ≤ x) →
      ∀ x ∈ q.foldl (fun score t => List.zipWith (fun x y => x + y) score
        (m.tdocs.map (fun d => bm25TermFactor m t d))) init, 0 ≤ x := by
  induction q with
  | nil => intro init h; simpa using h
  | cons t ts ih =>
    intro init h
    simp only [List.foldl_cons]
    refine ih _ ?_
    refine zipWith_forall_mem _ (fun y => (0:ℝ) ≤ y) _ h ?_ ?_
    · intro y hy
      rcases List.mem_map.mp hy with ⟨d, _, rfl⟩
      exact bm25TermFactor_nonneg m t d
    · intro x y hx hy
      linarith

lemma get_scores_nonneg (m : Bm25Model) (q : List Str) :
    ∀ x ∈ get_scores m q, 0 ≤ x := by
  unfold get_scores
  refine get_scores_foldl_nonneg m q _ ?_
  intro x hx
  rcases List.mem_map.mp hx with ⟨_, _, rfl⟩
  exact le_refl 0

lemma get_scores_foldl_zero (m : Bm25Model) (q : List Str)
    (hq : ∀ t ∈ q, bm25Df m t = 0) :
    ∀ init : List ℝ, (∀ x ∈ init, x = 0) →
      ∀ x ∈ q.foldl (fun score t => List.zipWith (fun x y => x + y) score
        (m.tdocs.map (fun d => bm25TermFactor m t d))) init, x = 0 := by
  induction q with
  | nil => intro init h; simpa using h
  | cons t ts ih =>
    intro init h
    simp only [List.foldl_cons]
    refine ih (fun u hu => hq u (List.mem_cons_of_mem _ hu)) _ ?_
    refine zipWith_forall_mem _ (fun y => y = (0:ℝ)) _ h ?_ ?_
    · intro y hy
      rcases List.mem_map.mp hy with ⟨d, _, rfl⟩
      exact bm25TermFactor_zero_of_df_zero m t d (hq t (List.mem_cons_self _ _))
    · intro x y hx hy
      rw [hx, hy, add_zero]

lemma get_scores_zero (m : Bm25Model) (q : List Str)
    (hq : ∀ t ∈ q, bm25Df m t = 0) : ∀ x ∈ get_scores m q, x = 0 := by
  unfold get_scores
  refine get_scores_foldl_zero m q hq _ ?_
  intro x hx
  rcases List.mem_map.mp hx with ⟨_, _, rfl⟩
  rfl

lemma bm25Df_eq_zero_of_not_mem (m : Bm25Model) (t : Str)
    (h : ∀ td ∈ m.tdocs, t ∉ td) : bm25Df m t = 0 := by
  unfold bm25Df
  rw [List.countP_eq_zero]
  intro d hd
  simpa using h d hd

/-! ### Normalization and fusion lemmas -/

lemma normalize_bm25_length (s : List ℝ) : (normalize_bm25 s).length = s.length := by
  unfold normalize_bm25
  by_cases h : 0 < listMax s <;> simp [h]

lemma normalize_bm25_bounds {s : List ℝ} (h0 : ∀ x ∈ s, 0 ≤ x) :
    ∀ x ∈ normalize_bm25 s, 0 ≤ x ∧ x ≤ 1 := by
  unfold normalize_bm25
  by_cases h : 0 < listMax s
  · rw [if_pos h]
    intro x hx
    rcases List.mem_map.mp hx with ⟨y, hy, rfl⟩
    constructor
    · exact div_nonneg (h0 y hy) (le_of_lt h)
    · exact (div_le_one h).mpr (le_listMax hy)
  · rw [if_neg h]
    intro x hx
    have h1 : x ≤ 0 := le_trans (le_listMax hx) (not_lt.mp h)
    have h2 : 0 ≤ x := h0 x hx
    constructor
    · exact h2
    · linarith

lemma normalize_bm25_all_zero {s : List ℝ} (h0 : ∀ x ∈ s, 0 ≤ x)
    (h : ¬ 0 < listMax s) : ∀ x ∈ normalize_bm25 s, x = 0 := by
  unfold normalize_bm25
  rw [if_neg h]
  intro x hx
  have h1 : x ≤ 0 := le_trans (le_listMax hx) (not_lt.mp h)
  exact le_antisymm h1 (h0 x hx)

lemma normalize_bm25_zero_of_zero {s : List ℝ} (h : ∀ x ∈ s, x = 0) :
    ∀ x ∈ normalize_bm25 s, x = 0 := by
  refine normalize_bm25_all_zero (fun x hx => le_of_eq (h x hx).symm) ?_
  rw [listMax_eq_zero h]
  exact lt_irrefl 0

lemma combined_of_length (t b : List ℝ) :
    (combined_of t b).length = min t.length b.length := by
  simp [combined_of]

lemma combined_of_bounds {t b : List ℝ}
    (ht : ∀ x ∈ t, 0 ≤ x ∧ x ≤ 1) (hb : ∀ x ∈ b, 0 ≤ x ∧ x ≤ 1) :
    ∀ c ∈ combined_of t b, 0 ≤ c ∧ c ≤ 1 := by
  unfold combined_of
  refine zipWith_forall_mem (fun x => 0 ≤ x ∧ x ≤ 1) (fun y => 0 ≤ y ∧ y ≤ 1) _ ht hb ?_
  intro x y hx hy
  constructor
  · linarith [hx.1, hy.1]
  · linarith [hx.2, hy.2]

lemma combined_of_zero {t b : List ℝ}
    (ht : ∀ x ∈ t, x = 0) (hb : ∀ x ∈ b, x = 0) :
    ∀ c ∈ combined_of t b, c = 0 := by
  unfold combined_of
  refine zipWith_forall_mem (fun x => x = (0:ℝ)) (fun y => y = (0:ℝ)) _ ht hb ?_
  intro x y hx hy
  rw [hx, hy]
  ring

/-! ### TF-IDF zero-vector lemmas -/

lemma dot_left_zero {a : List ℝ} (h : ∀ x ∈ a, x = 0) (b : List ℝ) : dot a b = 0 := by
  unfold dot
  apply List.sum_eq_zero
  refine zipWith_forall_mem (fun x => x = (0:ℝ)) (fun _ => True) _ h (fun _ _ => trivial) ?_
  intro x y hx _
  rw [hx, zero_mul]

lemma sumSq_eq_zero {v : List ℝ} (h : ∀ x ∈ v, x = 0) : sumSq v = 0 := by
  unfold sumSq
  apply List.sum_eq_zero
  intro y hy
  rcases List.mem_map.mp hy with ⟨x, hx, rfl⟩
  rw [h x hx, zero_mul]

lemma l2normalize_of_zero {v : List ℝ} (h : ∀ x ∈ v, x = 0) : l2normalize v = v := by
  unfold l2normalize
  rw [if_pos (sumSq_eq_zero h)]

lemma l2normalize_length (v : List ℝ) : (l2normalize v).length = v.length := by
  unfold l2normalize
  by_cases h : sumSq v = 0 <;> simp [h]

lemma tfidfWeights_length (stop vocab : List Str) (idf : Str → ℝ) (s : Str) :
    (tfidfWeights stop vocab idf s).length = vocab.length := by
  unfold tfidfWeights
  rw [l2normalize_length, List.length_map]

lemma cosineSimilarity_length (q : List ℝ) (rows : List (List ℝ)) :
    (cosineSimilarity q rows).length = rows.length := by
  simp [cosineSimilarity]

lemma cosineSimilarity_zero {q : List ℝ} (h : ∀ x ∈ q, x = 0) (rows : List (List ℝ)) :
    ∀ y ∈ cosineSimilarity q rows, y = 0 := by
  intro y hy
  rcases List.mem_map.mp hy with ⟨r, _, rfl⟩
  exact dot_left_zero h r

lemma transform_zero {m : TfidfModel} {query : Str}
    (h : ∀ t ∈ m.vocab, (tfidf_tokenize m.stop query).count t = 0) :
    ∀ x ∈ transform m query, x = 0 := by
  unfold transform tfidfWeights
  have hz : ∀ x ∈ m.vocab.map
      (fun t => (((tfidf_tokenize m.stop query).count t : ℝ)) * m.idf t), x = 0 := by
    intro x hx
    rcases List.mem_map.mp hx with ⟨t, ht, rfl⟩
    rw [h t ht]
    simp
  rw [l2normalize_of_zero hz]
  exact hz

/-! ### Built-model and pipeline lemmas -/

lemma vocabOf_subset {stop documents : List Str} {v : Str}
    (h : v ∈ vocabOf stop documents) : ∃ d ∈ documents, v ∈ tfidf_tokenize stop d := by
  unfold vocabOf at h
  have h1 := List.take_subset _ _ h
  have h2 : v ∈ (corpusTokens stop documents).dedup :=
    ((List.mergeSort_perm _ _).mem_iff).mp h1
  rw [List.mem_dedup] at h2
  rcases List.mem_flatten.mp h2 with ⟨tl, htl, hv⟩
  rcases List.mem_map.mp htl with ⟨d, hd, rfl⟩
  exact ⟨d, hd, hv⟩

lemma build_tfidf_model_stop (stop documents : List Str) :
    (build_tfidf_model stop documents).stop = stop := rfl

lemma build_tfidf_model_vocab (stop documents : List Str) :
    (build_tfidf_model stop documents).vocab = vocabOf stop documents := rfl

lemma build_tfidf_model_rows_length (stop documents : List Str) :
    (build_tfidf_model stop documents).rows.length = documents.length := by
  simp [build_tfidf_model]

lemma build_bm25_model_length (documents : List Str) :
    (build_bm25_model documents).tdocs.length = documents.length := by
  simp [build_bm25_model]

lemma combinedScores_length {n : ℕ} (query : Str) (m : TfidfModel) (bm : Bm25Model)
    (hm : m.rows.length = n) (hb : bm.tdocs.length = n) :
    (combinedScores query m bm).length = n := by
  unfold combinedScores
  rw [combined_of_length, cosineSimilarity_length, normalize_bm25_length,
    get_scores_length, hm, hb, min_self]

lemma combinedScores_zero {query : Str} {m : TfidfModel} {bm : Bm25Model}
    (h1 : ∀ t ∈ m.vocab, (tfidf_tokenize m.stop (preprocess_text query)).count t = 0)
    (h2 : ∀ t ∈ pySplit (preprocess_text query), bm25Df bm t = 0) :
    ∀ c ∈ combinedScores query m bm, c = 0 := by
  unfold combinedScores
  exact combined_of_zero (cosineSimilarity_zero (transform_zero h1) _)
    (normalize_bm25_zero_of_zero (get_scores_zero bm _ h2))

lemma hybrid_search_eq (query : Str) (m : TfidfModel) (bm : Bm25Model)
    (documents titles : List Str) (top_k : ℤ) :
    hybrid_search query m bm documents titles top_k =
      (pyTake (argsort (combinedScores query m bm)).reverse top_k).map (fun idx =>
        (idx, titles.getD idx [], makeSnippet (documents.getD idx []),
          (combinedScores query m bm).getD idx 0)) := rfl

lemma hybrid_search_length (query : Str) (m : TfidfModel) (bm : Bm25Model)
    (documents titles : List Str) (top_k : ℤ) :
    (hybrid_search query m bm documents titles top_k).length =
      if 0 ≤ top_k then min top_k.toNat (combinedScores query m bm).length
      else (combinedScores query m bm).length - (-top_k).toNat := by
  rw [hybrid_search_eq, List.length_map, pyTake_length, List.length_reverse, argsort_length]

lemma hybrid_search_map_fst (query : Str) (m : TfidfModel) (bm : Bm25Model)
    (documents titles : List Str) (top_k : ℤ) :
    (hybrid_search query m bm documents titles top_k).map (fun r => r.1) =
      pyTake (argsort (combinedScores query m bm)).reverse top_k := by
  rw [hybrid_search_eq, List.map_map]
  exact List.map_id _

lemma hybrid_search_pairwise (query : Str) (m : TfidfModel) (bm : Bm25Model)
    (documents titles : List Str) (top_k : ℤ) :
    (hybrid_search query m bm documents titles top_k).Pairwise
      (fun r s => s.2.2.2 < r.2.2.2 ∨ (r.2.2.2 = s.2.2.2 ∧ s.1 < r.1)) := by
  rw [hybrid_search_eq, List.pairwise_map]
  exact List.Pairwise.sublist (pyTake_sublist _ top_k)
    (argsort_reverse_pairwise (combinedScores query m bm))

lemma hybrid_search_mem_fst {query : Str} {m : TfidfModel} {bm : Bm25Model}
    {documents titles : List Str} {top_k : ℤ} {r : RankedResult}
    (hr : r ∈ hybrid_search query m bm documents titles top_k) :
    r.1 < (combinedScores query m bm).length := by
  rw [hybrid_search_eq] at hr
  rcases List.mem_map.mp hr with ⟨idx, hidx, rfl⟩
  have h1 : idx ∈ (argsort (combinedScores query m bm)).reverse :=
    pyTake_subset _ _ hidx
  rw [List.mem_reverse] at h1
  exact mem_argsort.mp h1

lemma hybrid_search_fields {query : Str} {m : TfidfModel} {bm : Bm25Model}
    {documents titles : List Str} {top_k : ℤ} {r : RankedResult}
    (hr : r ∈ hybrid_search query m bm documents titles top_k) :
    r.2.1 = titles.getD r.1 [] ∧ r.2.2.1 = makeSnippet (documents.getD r.1 []) ∧
      r.2.2.2 = (combinedScores query m bm).getD r.1 0 := by
  rw [hybrid_search_eq] at hr
  rcases List.mem_map.mp hr with ⟨idx, _, rfl⟩
  exact ⟨rfl, rfl, rfl⟩

lemma hybrid_search_fst_nodup (query : Str) (m : TfidfModel) (bm : Bm25Model)
    (documents titles : List Str) (top_k : ℤ) :
    ((hybrid_search query m bm documents titles top_k).map (fun r => r.1)).Nodup := by
  rw [hybrid_search_map_fst]
  exact (pyTake_sublist _ top_k).nodup (List.nodup_reverse.mpr (argsort_nodup _))

/-! ### Character and tokenizer lemmas -/

lemma toLower_of_isWhitespace {c : Char} (h : c.isWhitespace = true) : c.toLower = c := by
  simp only [Char.isWhitespace, Bool.or_eq_true, decide_eq_true_eq] at h
  rcases h with ((h | h) | h) | h <;> subst h <;> decide

lemma not_isAlphanum_of_isWhitespace {c : Char} (h : c.isWhitespace = true) :
    ¬ c.isAlphanum = true := by
  simp only [Char.isWhitespace, Bool.or_eq_true, decide_eq_true_eq] at h
  rcases h with ((h | h) | h) | h <;> subst h <;> decide

lemma map_toLower_all_ws {s : Str} (h : ∀ c ∈ s, c.isWhitespace = true) :
    ∀ c ∈ s.map Char.toLower, c.isWhitespace = true := by
  intro c hc
  rcases List.mem_map.mp hc with ⟨c', hc', rfl⟩
  rw [toLower_of_isWhitespace (h c' hc')]
  exact h c' hc'

lemma splitWsAux_nil_of_all_ws {s : Str} (h : ∀ c ∈ s, c.isWhitespace = true) :
    splitWsAux [] s = [] := by
  induction s with
  | nil => rfl
  | cons c rest ih =>
    have hc := h c (List.mem_cons_self _ _)
    show splitWsAux [] (c :: rest) = []
    rw [splitWsAux, if_pos hc, if_pos rfl]
    exact ih (fun u hu => h u (List.mem_cons_of_mem _ hu))

lemma pySplit_nil_of_all_ws {s : Str} (h : ∀ c ∈ s, c.isWhitespace = true) :
    pySplit s = [] :=
  splitWsAux_nil_of_all_ws h

lemma alnumRunsAux_nil_of_all_ws {s : Str} (h : ∀ c ∈ s, c.isWhitespace = true) :
    alnumRunsAux [] s = [] := by
  induction s with
  | nil => rfl
  | cons c rest ih =>
    have hc := not_isAlphanum_of_isWhitespace (h c (List.mem_cons_self _ _))
    show alnumRunsAux [] (c :: rest) = []
    rw [alnumRunsAux, if_neg hc, if_pos rfl]
    exact ih (fun u hu => h u (List.mem_cons_of_mem _ hu))

lemma tfidf_tokenize_nil_of_all_ws {stop : List Str} {s : Str}
    (h : ∀ c ∈ s, c.isWhitespace = true) : tfidf_tokenize stop s = [] := by
  unfold tfidf_tokenize alnumRuns
  rw [alnumRunsAux_nil_of_all_ws (map_toLower_all_ws h)]
  rfl

/-! ### No-overlap and zero-score lemmas -/

lemma combinedScores_zero_of_ws {query : Str} {m : TfidfModel} {bm : Bm25Model}
    (h : ∀ c ∈ query, c.isWhitespace = true) :
    ∀ c ∈ combinedScores query m bm, c = 0 := by
  have hws : ∀ c ∈ preprocess_text query, c.isWhitespace = true := map_toLower_all_ws h
  refine combinedScores_zero ?_ ?_
  · intro t _
    rw [tfidf_tokenize_nil_of_all_ws hws]
    simp
  · intro t ht
    rw [pySplit_nil_of_all_ws hws] at ht
    simp at ht

lemma combinedScores_zero_of_no_overlap {query : Str} {stop documents titles : List Str}
    (hTF : ∀ t ∈ tfidf_tokenize stop (preprocess_text query),
      ∀ d ∈ documents.map preprocess_text, t ∉ tfidf_tokenize stop d)
    (hBM : ∀ t ∈ pySplit (preprocess_text query),
      ∀ td ∈ (buildIndex stop documents titles).bm25.tdocs, t ∉ td) :
    ∀ c ∈ combinedScores query (buildIndex stop documents titles).tfidf
      (buildIndex stop documents titles).bm25, c = 0 := by
  refine combinedScores_zero ?_ ?_
  · intro t ht
    rw [List.count_eq_zero]
    intro hmem
    have hstop : (buildIndex stop documents titles).tfidf.stop = stop := rfl
    rw [hstop] at hmem
    have hv : t ∈ vocabOf stop (documents.map preprocess_text) := ht
    rcases vocabOf_subset hv with ⟨d, hd, htd⟩
    exact hTF t hmem d hd htd
  · intro t ht
    exact bm25Df_eq_zero_of_not_mem _ t (hBM t ht)

lemma hybrid_search_scores_zero {query : Str} {m : TfidfModel} {bm : Bm25Model}
    {documents titles : List Str} {top_k : ℤ}
    (hz : ∀ c ∈ combinedScores query m bm, c = 0) :
    ∀ r ∈ hybrid_search query m bm documents titles top_k, r.2.2.2 = 0 := by
  intro r hr
  have h1 := (hybrid_search_fields hr).2.2
  have h2 := hybrid_search_mem_fst hr
  rw [h1, List.getD_eq_getElem _ _ h2]
  exact hz _ (List.getElem_mem h2)

lemma hybrid_search_map_fst_of_zero {query : Str} {m : TfidfModel} {bm : Bm25Model}
    {documents titles : List Str} {top_k : ℤ}
    (hz : ∀ c ∈ combinedScores query m bm, c = 0) :
    (hybrid_search query m bm documents titles top_k).map (fun r => r.1) =
      pyTake (List.range (combinedScores query m bm).length).reverse top_k := by
  rw [hybrid_search_map_fst, argsort_const hz]

/-! ### BM25 fold/sum agreement -/

lemma bm25SpecScore_cons (m : Bm25Model) (t : Str) (ts : List Str) (d : ℕ) :
    bm25SpecScore m (t :: ts) d =
      (if bm25Df m t = 0 then 0 else
        bm25Idf m t * ((((m.tdocs.getD d []).count t : ℝ)) * (bm25K1 + 1)) /
          ((((m.tdocs.getD d []).count t : ℝ)) +
            bm25K1 * (1 - bm25B + bm25B * (((m.tdocs.getD d []).length : ℝ)) / bm25Avgdl m)))
        + bm25SpecScore m ts d := by
  simp [bm25SpecScore]

lemma bm25TermFactor_eq_spec (m : Bm25Model) (t : Str) (dd : List Str) :
    bm25TermFactor m t dd =
      if bm25Df m t = 0 then 0 else
        bm25Idf m t * (((dd.count t : ℝ)) * (bm25K1 + 1)) /
          (((dd.count t : ℝ)) + bm25K1 * (1 - bm25B + bm25B * ((dd.length : ℝ)) / bm25Avgdl m)) := by
  unfold bm25TermFactor
  by_cases h : bm25Df m t = 0
  · rw [if_pos h, if_pos h, zero_mul, zero_div]
  · rw [if_neg h, if_neg h]

lemma get_scores_foldl_getD (m : Bm25Model) (q : List Str) :
    ∀ init : List ℝ, init.length = m.tdocs.length → ∀ d : ℕ, d < m.tdocs.length →
      (q.foldl (fun score t => List.zipWith (fun x y => x + y) score
        (m.tdocs.map (fun dd => bm25TermFactor m t dd))) init).getD d 0 =
        init.getD d 0 + bm25SpecScore m q d := by
  induction q with
  | nil =>
    intro init _ d _
    simp [bm25SpecScore]
  | cons t ts ih =>
    intro init hlen d hd
    simp only [List.foldl_cons]
    have hdi : d < init.length := by omega
    have hdz : d < (List.zipWith (fun x y => x + y) init
        (m.tdocs.map (fun dd => bm25TermFactor m t dd))).length := by
      rw [List.length_zipWith, List.length_map, hlen, min_self]
      exact hd
    have hstep : (List.zipWith (fun x y => x + y) init
        (m.tdocs.map (fun dd => bm25TermFactor m t dd))).getD d 0 =
        init.getD d 0 + bm25TermFactor m t (m.tdocs.getD d []) := by
      rw [List.getD_eq_getElem _ _ hdz, List.getElem_zipWith, List.getElem_map,
        List.getD_eq_getElem _ _ hdi, List.getD_eq_getElem _ _ hd]
    rw [ih _ (by rw [List.length_zipWith, List.length_map, hlen, min_self]) d hd,
      hstep, bm25SpecScore_cons, bm25TermFactor_eq_spec]
    ring

lemma get_scores_getD (m : Bm25Model) (q : List Str) (d : ℕ) :
    (get_scores m q).getD d 0 = bm25SpecScore m q d := by
  by_cases hd : d < m.tdocs.length
  · unfold get_scores
    rw [get_scores_foldl_getD m q _ (by simp) d hd]
    have hdm : d < (m.tdocs.map (fun _ => (0 : ℝ))).length := by simpa using hd
    rw [List.getD_eq_getElem _ _ hdm, List.getElem_map, zero_add]
  · have h1 : (get_scores m q).getD d 0 = 0 := by
      apply List.getD_eq_default
      rw [get_scores_length]
      omega
    have h2 : bm25SpecScore m q d = 0 := by
      unfold bm25SpecScore
      apply List.sum_eq_zero
      intro y hy
      rcases List.mem_map.mp hy with ⟨t, _, rfl⟩
      have hout : m.tdocs.getD d [] = [] := List.getD_eq_default _ _ (by omega)
      rw [hout]
      by_cases hdf : bm25Df m t = 0
      · rw [if_pos hdf]
      · rw [if_neg hdf]
        simp
    rw [h1, h2]

/-! ### Lexicographic order and vocabulary lemmas -/

lemma lexLe_cons (a b : Char) (as bs : Str) :
    lexLe (a :: as) (b :: bs) =
      if a < b then true else if b < a then false else lexLe as bs := rfl

lemma lexLe_total : ∀ a b : Str, (lexLe a b || lexLe b a) = true := by
  intro a
  induction a with
  | nil => intro b; simp [lexLe]
  | cons c as ih =>
    intro b
    cases b with
    | nil => simp [lexLe]
    | cons d bs =>
      rw [lexLe_cons, lexLe_cons]
      rcases lt_trichotomy c d with h | h | h
      · rw [if_pos h, Bool.true_or]
      · subst h
        rw [if_neg (lt_irrefl c), if_neg (lt_irrefl c), if_neg (lt_irrefl c),
          if_neg (lt_irrefl c)]
        exact ih bs
      · rw [if_neg (asymm h), if_pos h, if_pos h]
        rfl

lemma lexLe_trans : ∀ a b c : Str, lexLe a b = true → lexLe b c = true → lexLe a c = true := by
  intro a
  induction a with
  | nil => intro b c _ _; rfl
  | cons x as ih =>
    intro b c hab hbc
    cases b with
    | nil => exact absurd hab (by simp [lexLe])
    | cons y bs =>
      cases c with
      | nil => exact absurd hbc (by simp [lexLe])
      | cons z cs =>
        rw [lexLe_cons] at hab hbc ⊢
        rcases lt_trichotomy x y with hxy | hxy | hxy
        · rcases lt_trichotomy y z with hyz | hyz | hyz
          · rw [if_pos (lt_trans hxy hyz)]
          · subst hyz
            rw [if_pos hxy]
          · rw [if_neg (asymm hyz), if_pos hyz] at hbc
            exact absurd hbc (by simp)
        · subst hxy
          rw [if_neg (lt_irrefl x), if_neg (lt_irrefl x)] at hab
          rcases lt_trichotomy x z with hxz | hxz | hxz
          · rw [if_pos hxz]
          · subst hxz
            rw [if_neg (lt_irrefl x), if_neg (lt_irrefl x)] at hbc ⊢
            exact ih bs cs hab hbc
          · rw [if_neg (asymm hxz), if_pos hxz] at hbc
            exact absurd hbc (by simp)
        · rw [if_neg (asymm hxy), if_pos hxy] at hab
          exact absurd hab (by simp)

lemma vocabLe_iff {toks : List Str} {a b : Str} :
    vocabLe toks a b = true ↔
      (toks.count b < toks.count a ∨
        (toks.count a = toks.count b ∧ lexLe a b = true)) := by
  simp [vocabLe]

lemma vocabLe_trans (toks : List Str) :
    ∀ a b c : Str, vocabLe toks a b = true → vocabLe toks b c = true →
      vocabLe toks a c = true := by
  intro a b c hab hbc
  rw [vocabLe_iff] at hab hbc ⊢
  rcases hab with h | ⟨he, hle⟩ <;> rcases hbc with h' | ⟨he', hle'⟩
  · exact Or.inl (lt_trans h' h)
  · exact Or.inl (he' ▸ h)
  · exact Or.inl (he ▸ h')
  · exact Or.inr ⟨he.trans he', lexLe_trans a b c hle hle'⟩

lemma vocabLe_total (toks : List Str) :
    ∀ a b : Str, (vocabLe toks a b || vocabLe toks b a) = true := by
  intro a b
  simp only [Bool.or_eq_true, vocabLe_iff]
  rcases lt_trichotomy (toks.count a) (toks.count b) with h | h | h
  · exact Or.inr (Or.inl h)
  · have htot := lexLe_total a b
    simp only [Bool.or_eq_true] at htot
    rcases htot with hl | hl
    · exact Or.inl (Or.inr ⟨h, hl⟩)
    · exact Or.inr (Or.inr ⟨h.symm, hl⟩)
  · exact Or.inl (Or.inl h)

lemma vocabOf_sorted (stop documents : List Str) :
    (vocabOf stop documents).Pairwise
      (fun a b => vocabLe (corpusTokens stop documents) a b = true) := by
  unfold vocabOf
  exact List.Pairwise.sublist (List.take_sublist _ _)
    (List.sorted_mergeSort (vocabLe_trans _) (vocabLe_total _) _)

lemma vocabOf_length (stop documents : List Str) :
    (vocabOf stop documents).length =
      min 5000 (corpusTokens stop documents).dedup.length := by
  unfold vocabOf
  rw [List.length_take, (List.mergeSort_perm _ _).length_eq]

lemma vocabOf_nodup (stop documents : List Str) : (vocabOf stop documents).Nodup := by
  unfold vocabOf
  exact (List.take_sublist _ _).nodup
    ((List.mergeSort_perm _ _).nodup_iff.mpr (List.nodup_dedup _))

lemma vocabOf_mem_dedup {stop documents : List Str} {v : Str}
    (h : v ∈ vocabOf stop documents) : v ∈ (corpusTokens stop documents).dedup := by
  unfold vocabOf at h
  exact (List.mergeSort_perm _ _).mem_iff.mp (List.take_subset _ _ h)

lemma vocabOf_dominates {stop documents : List Str} {v u : Str}
    (hv : v ∈ vocabOf stop documents) (hu : u ∈ (corpusTokens stop documents).dedup)
    (hnot : u ∉ vocabOf stop documents) :
    vocabLe (corpusTokens stop documents) v u = true := by
  have hS : ((corpusTokens stop documents).dedup.mergeSort
      (vocabLe (corpusTokens stop documents))).Pairwise
      (fun a b => vocabLe (corpusTokens stop documents) a b = true) :=
    List.sorted_mergeSort (vocabLe_trans _) (vocabLe_total _) _
  have happ : (((corpusTokens stop documents).dedup.mergeSort
        (vocabLe (corpusTokens stop documents))).take 5000 ++
      ((corpusTokens stop documents).dedup.mergeSort
        (vocabLe (corpusTokens stop documents))).drop 5000).Pairwise
      (fun a b => vocabLe (corpusTokens stop documents) a b = true) := by
    rw [List.take_append_drop]
    exact hS
  have hsplit := (List.pairwise_append.mp happ).2.2
  have huS : u ∈ (corpusTokens stop documents).dedup.mergeSort
      (vocabLe (corpusTokens stop documents)) :=
    (List.mergeSort_perm _ _).mem_iff.mpr hu
  have hu2 : u ∈ ((corpusTokens stop documents).dedup.mergeSort
        (vocabLe (corpusTokens stop documents))).take 5000 ∨
      u ∈ ((corpusTokens stop documents).dedup.mergeSort
        (vocabLe (corpusTokens stop documents))).drop 5000 := by
    rw [← List.mem_append, List.take_append_drop]
    exact huS
  rcases hu2 with hu2 | hu2
  · exact absurd hu2 hnot
  · exact hsplit v hv u hu2

/-! ### Snippet and search-length lemmas -/

lemma makeSnippet_short {content : Str} (h : content.length ≤ 200)
    (hs : strip content = content) : makeSnippet content = content := by
  unfold makeSnippet
  rw [List.take_of_length_le h, hs, if_neg (by omega), List.append_nil]

lemma makeSnippet_long {content : Str} (h : 200 < content.length)
    (hs : strip (content.take 200) = content.take 200) :
    makeSnippet content = content.take 200 ++ ellipsis := by
  unfold makeSnippet
  rw [hs, if_pos h]

lemma buildIndex_rows_length (stop documents titles : List Str) :
    (buildIndex stop documents titles).tfidf.rows.length = documents.length := by
  show (build_tfidf_model stop (documents.map preprocess_text)).rows.length = _
  rw [build_tfidf_model_rows_length, List.length_map]

lemma buildIndex_tdocs_length (stop documents titles : List Str) :
    (buildIndex stop documents titles).bm25.tdocs.length = documents.length := by
  show (build_bm25_model (documents.map preprocess_text)).tdocs.length = _
  rw [build_bm25_model_length, List.length_map]

lemma search_combinedScores_length (stop documents titles : List Str) (query : Str) :
    (combinedScores query (buildIndex stop documents titles).tfidf
      (buildIndex stop documents titles).bm25).length = documents.length :=
  combinedScores_length query _ _ (buildIndex_rows_length stop documents titles)
    (buildIndex_tdocs_length stop documents titles)

lemma search_buildIndex_length (stop documents titles : List Str) (query : Str) (top_k : ℤ) :
    (search (buildIndex stop documents titles) query top_k).length =
      if 0 ≤ top_k then min top_k.toNat documents.length
      else documents.length - (-top_k).toNat := by
  show (hybrid_search query _ _ _ _ top_k).length = _
  rw [hybrid_search_length, search_combinedScores_length]

/-! ### Claim theorems -/

/-- C4: for every corpus, query term list and document index, the raw BM25
score delivered by `get_scores` is exactly the specification's sum over
query terms — `idf(t) * (tf(t,d)*(k1+1)) / (tf(t,d) + k1*(1 - b +
b*docLen(d)/avgDocLength))` with `idf(t) = ln((N - df(t) + 0.5)/(df(t) +
0.5) + 1)`, `k1 = 1.5`, `b = 0.75` — and a query term with zero document
frequency contributes exactly zero (never negative infinity; in this
real-number model no infinity exists and the zero-`df` branch never takes
a logarithm). -/
theorem C4_bm25_raw_score (documents : List Str) (query : List Str) (d : ℕ) :
    (get_scores (build_bm25_model documents) query).getD d 0 =
      bm25SpecScore (build_bm25_model documents) query d ∧
    (∀ t ∈ query, bm25Df (build_bm25_model documents) t = 0 →
      bm25SpecScore (build_bm25_model documents) [t] d = 0) := by
  constructor
  · exact get_scores_getD _ query d
  · intro t _ hdf
    simp [bm25SpecScore, hdf]

/-- C5: the BM25 normalization of `hybrid_search` (lines 161–165) divides
by the maximum raw score exactly when that maximum is strictly positive;
otherwise it keeps the raw vector, which is then everywhere zero (raw BM25
scores are non-negative); and every normalized score lies in [0,1], so no
NaN or infinity can appear (scores are real numbers and the only division
is by a strictly positive maximum). -/
theorem C5_bm25_normalization_guard (documents : List Str) (query : Str) :
    ((0 : ℝ) < listMax (get_scores (build_bm25_model (documents.map preprocess_text))
        (pySplit (preprocess_text query))) →
      normalize_bm25 (get_scores (build_bm25_model (documents.map preprocess_text))
          (pySplit (preprocess_text query))) =
        (get_scores (build_bm25_model (documents.map preprocess_text))
          (pySplit (preprocess_text query))).map
          (fun x => x / listMax (get_scores (build_bm25_model (documents.map preprocess_text))
            (pySplit (preprocess_text query))))) ∧
    (¬ (0 : ℝ) < listMax (get_scores (build_bm25_model (documents.map preprocess_text))
        (pySplit (preprocess_text query))) →
      ∀ x ∈ normalize_bm25 (get_scores (build_bm25_model (documents.map preprocess_text))
        (pySplit (preprocess_text query))), x = 0) ∧
    (∀ x ∈ normalize_bm25 (get_scores (build_bm25_model (documents.map preprocess_text))
        (pySplit (preprocess_text query))), 0 ≤ x ∧ x ≤ 1) := by
  refine ⟨?_, ?_, ?_⟩
  · intro h
    unfold normalize_bm25
    rw [if_pos h]
  · intro h
    exact normalize_bm25_all_zero (get_scores_nonneg _ _) h
  · exact normalize_bm25_bounds (get_scores_nonneg _ _)

/-- C6: the 50/50 fusion of `hybrid_search` (line 168) maps sub-score
vectors bounded in [0,1] to combined scores in [0,1] (the implementation's
weights are wT = wB = 0.5, which sum to 1). -/
theorem C6_combined_score_bounds (t b : List ℝ)
    (ht : ∀ x ∈ t, 0 ≤ x ∧ x ≤ 1) (hb : ∀ x ∈ b, 0 ≤ x ∧ x ≤ 1) :
    ∀ c ∈ combined_of t b, 0 ≤ c ∧ c ≤ 1 :=
  combined_of_bounds ht hb

/-- C6 witness: the fusion of the concrete bounded vectors [1] and [0]
stays in [0,1]. -/
theorem C6_combined_score_bounds_witness :
    (∀ x ∈ ([1] : List ℝ), 0 ≤ x ∧ x ≤ 1) ∧ (∀ x ∈ ([0] : List ℝ), 0 ≤ x ∧ x ≤ 1) ∧
      ∀ c ∈ combined_of [1] [0], 0 ≤ c ∧ c ≤ 1 := by
  have h1 : ∀ x ∈ ([1] : List ℝ), 0 ≤ x ∧ x ≤ 1 := by
    intro x hx
    rw [List.mem_singleton] at hx
    subst hx
    norm_num
  have h0 : ∀ x ∈ ([0] : List ℝ), 0 ≤ x ∧ x ≤ 1 := by
    intro x hx
    rw [List.mem_singleton] at hx
    subst hx
    norm_num
  exact ⟨h1, h0, C6_combined_score_bounds [1] [0] h1 h0⟩

/-- C7: when topK is at least the corpus size the search returns all N
documents — the result length is N, the returned index sequence is the
full ranking `argsort(combined)[::-1]` and is a permutation of `0..N` —
and topK = 0 returns the empty list. -/
theorem C7_topk_boundary (stop documents titles : List Str) (query : Str) (top_k : ℤ) :
    ((documents.length : ℤ) ≤ top_k →
      (search (buildIndex stop documents titles) query top_k).length = documents.length ∧
      (search (buildIndex stop documents titles) query top_k).map (fun r => r.1) =
        (argsort (combinedScores query (buildIndex stop documents titles).tfidf
          (buildIndex stop documents titles).bm25)).reverse ∧
      ((search (buildIndex stop documents titles) query top_k).map
        (fun r => r.1)).Perm (List.range documents.length)) ∧
    search (buildIndex stop documents titles) query 0 = [] := by
  constructor
  · intro h
    have h0 : (0 : ℤ) ≤ top_k := le_trans (Int.natCast_nonneg _) h
    have hmap : (search (buildIndex stop documents titles) query top_k).map (fun r => r.1) =
        (argsort (combinedScores query (buildIndex stop documents titles).tfidf
          (buildIndex stop documents titles).bm25)).reverse := by
      show (hybrid_search query _ _ _ _ top_k).map (fun r => r.1) = _
      rw [hybrid_search_map_fst]
      apply pyTake_of_length_le
      rw [List.length_reverse, argsort_length, search_combinedScores_length]
      exact h
    refine ⟨?_, hmap, ?_⟩
    · rw [search_buildIndex_length, if_pos h0]
      have hle : documents.length ≤ top_k.toNat := by omega
      exact min_eq_right hle
    · rw [hmap]
      have hperm := (List.reverse_perm (argsort (combinedScores query
        (buildIndex stop documents titles).tfidf
        (buildIndex stop documents titles).bm25))).trans (argsort_perm _)
      rwa [search_combinedScores_length] at hperm
  · show (hybrid_search query _ _ _ _ 0) = []
    rw [hybrid_search_eq, pyTake_zero]
    rfl

/-- C8: the TF-IDF vocabulary keeps min(5000, number of distinct terms)
distinct corpus terms, listed in order of corpus-wide term frequency
descending with ties broken by ascending lexicographic order, and every
kept term dominates every distinct corpus term that was dropped under the
same (frequency, lexicographic) priority; being a pure function of the
corpus, the selection is deterministic for identical input. -/
theorem C8_vocabulary_top5000 (stop documents : List Str) :
    (vocabOf stop documents).length = min 5000 (corpusTokens stop documents).dedup.length ∧
    (vocabOf stop documents).Nodup ∧
    (∀ v ∈ vocabOf stop documents, v ∈ (corpusTokens stop documents).dedup) ∧
    (vocabOf stop documents).Pairwise (fun a b =>
      (corpusTokens stop documents).count b < (corpusTokens stop documents).count a ∨
      ((corpusTokens stop documents).count a = (corpusTokens stop documents).count b ∧
        lexLe a b = true)) ∧
    (∀ v ∈ vocabOf stop documents, ∀ u ∈ (corpusTokens stop documents).dedup,
      u ∉ vocabOf stop documents →
        ((corpusTokens stop documents).count u < (corpusTokens stop documents).count v ∨
          ((corpusTokens stop documents).count v = (corpusTokens stop documents).count u ∧
            lexLe v u = true))) := by
  refine ⟨vocabOf_length stop documents, vocabOf_nodup stop documents,
    fun v hv => vocabOf_mem_dedup hv, ?_, ?_⟩
  · exact (vocabOf_sorted stop documents).imp (fun h => vocabLe_iff.mp h)
  · intro v hv u hu hnot
    exact vocabLe_iff.mp (vocabOf_dominates hv hu hnot)

set_option maxRecDepth 8000 in
/-- C9: the snippet is the stripped first 200 characters of the
original-case document text with the ellipsis appended exactly when the
text exceeds 200 characters; a 250-character text (whose 200-character
prefix carries no edge whitespace) yields that 200-character prefix plus
the ellipsis marker, and a 150-character already-stripped text is
returned whole with no marker; both scenarios are also checked on
concrete 250- and 150-character inputs. -/
theorem C9_snippet_assembly (content : Str) :
    makeSnippet content =
      strip (content.take 200) ++ (if 200 < content.length then ellipsis else []) ∧
    (content.length = 250 → strip (content.take 200) = content.take 200 →
      makeSnippet content = content.take 200 ++ ellipsis ∧
        (content.take 200).length = 200) ∧
    (content.length = 150 → strip content = content → makeSnippet content = content) ∧
    makeSnippet (List.replicate 250 'a') = List.replicate 200 'a' ++ ellipsis ∧
    makeSnippet (List.replicate 150 'a') = List.replicate 150 'a' := by
  refine ⟨rfl, ?_, ?_, ?_, ?_⟩
  · intro h250 hs
    refine ⟨makeSnippet_long (by omega) hs, ?_⟩
    rw [List.length_take, h250]
    norm_num
  · intro h150 hs
    exact makeSnippet_short (by omega) hs
  · decide
  · decide

/-- C10: every result record of a search over a built index carries a
document index below the corpus size, all returned indices are pairwise
distinct, and the title, snippet and score fields are exactly those the
code derives from that index — the title at the index, the snippet of the
original-case document at the index, and the combined score at the
index. -/
theorem C10_result_record_invariants (stop documents titles : List Str)
    (query : Str) (k : ℕ) :
    (∀ r ∈ search (buildIndex stop documents titles) query (k : ℤ),
      r.1 < documents.length ∧
      r.2.1 = titles.getD r.1 [] ∧
      r.2.2.1 = makeSnippet (documents.getD r.1 []) ∧
      r.2.2.2 = (combinedScores query (buildIndex stop documents titles).tfidf
        (buildIndex stop documents titles).bm25).getD r.1 0) ∧
    ((search (buildIndex stop documents titles) query (k : ℤ)).map
      (fun r => r.1)).Nodup := by
  constructor
  · intro r hr
    have h1 := hybrid_search_mem_fst hr
    rw [search_combinedScores_length] at h1
    exact ⟨h1, hybrid_search_fields hr⟩
  · exact hybrid_search_fst_nodup _ _ _ _ _ _

/-- C1 (amended): search results are sorted by combined score descending,
but ties are ordered by DESCENDING original document id — reversing a
stable ascending argsort reverses tied runs — and a query sharing no
tokens with any document yields all-zero combined scores and a result
list ordered purely by descending document id
(`np.argsort(zeros)[::-1]` is `[N-1, ..., 0]`). -/
theorem C1_ranking_descending_ties (stop documents titles : List Str)
    (query : Str) (top_k : ℤ) :
    (search (buildIndex stop documents titles) query top_k).Pairwise
      (fun r s => s.2.2.2 < r.2.2.2 ∨ (r.2.2.2 = s.2.2.2 ∧ s.1 < r.1)) ∧
    ((∀ t ∈ tfidf_tokenize stop (preprocess_text query),
        ∀ d ∈ documents.map preprocess_text, t ∉ tfidf_tokenize stop d) →
      (∀ t ∈ pySplit (preprocess_text query),
        ∀ td ∈ (buildIndex stop documents titles).bm25.tdocs, t ∉ td) →
      (∀ r ∈ search (buildIndex stop documents titles) query top_k, r.2.2.2 = 0) ∧
      (search (buildIndex stop documents titles) query top_k).map (fun r => r.1) =
        pyTake (List.range documents.length).reverse top_k) := by
  constructor
  · exact hybrid_search_pairwise query _ _ _ _ top_k
  · intro hTF hBM
    have hz := combinedScores_zero_of_no_overlap hTF hBM
    constructor
    · exact hybrid_search_scores_zero hz
    · have h := @hybrid_search_map_fst_of_zero query
        (buildIndex stop documents titles).tfidf
        (buildIndex stop documents titles).bm25 documents titles top_k hz
      rwa [search_combinedScores_length] at h

/-- C1 counterexample: on the two-document corpus ["a", "b"] and the
no-overlap query "q", both results score 0 yet the returned document ids
are [1, 0] — equal-score results appear in descending, not ascending, id
order. -/
theorem C1_counterexample_descending_tie :
    (search (buildIndex [] [['a'], ['b']] [['a'], ['b']]) ['q'] 5).map (fun r => r.1) =
      [1, 0] ∧
    ∀ r ∈ search (buildIndex [] [['a'], ['b']] [['a'], ['b']]) ['q'] 5, r.2.2.2 = 0 := by
  have hTF : ∀ t ∈ tfidf_tokenize [] (preprocess_text ['q']),
      ∀ d ∈ ([['a'], ['b']] : List Str).map preprocess_text, t ∉ tfidf_tokenize [] d := by
    decide
  have hBM : ∀ t ∈ pySplit (preprocess_text ['q']),
      ∀ td ∈ (buildIndex [] [['a'], ['b']] [['a'], ['b']]).bm25.tdocs, t ∉ td := by
    decide
  have hz := combinedScores_zero_of_no_overlap hTF hBM
  constructor
  · have h := @hybrid_search_map_fst_of_zero ['q']
      (buildIndex [] [['a'], ['b']] [['a'], ['b']]).tfidf
      (buildIndex [] [['a'], ['b']] [['a'], ['b']]).bm25 [['a'], ['b']] [['a'], ['b']] 5 hz
    rw [search_combinedScores_length] at h
    exact h.trans (by decide)
  · exact hybrid_search_scores_zero hz

/-- C2 (amended): `hybrid_search` itself does not reject an empty or
whitespace-only query and does not fail on one; it returns min(topK, N)
results, every one with combined score 0 (the empty-result behaviour for
empty queries lives in the caller, `main`'s menu loop, which skips blank
input before ever calling `hybrid_search`). -/
theorem C2_whitespace_query_results (stop documents titles : List Str)
    (query : Str) (k : ℕ) (h : ∀ c ∈ query, c.isWhitespace = true) :
    (search (buildIndex stop documents titles) query (k : ℤ)).length =
      min k documents.length ∧
    ∀ r ∈ search (buildIndex stop documents titles) query (k : ℤ), r.2.2.2 = 0 := by
  constructor
  · rw [search_buildIndex_length, if_pos (Int.natCast_nonneg k), Int.toNat_natCast]
  · exact hybrid_search_scores_zero (combinedScores_zero_of_ws h)

/-- C2 witness: on the one-document corpus ["a"], the whitespace query
" " with topK = 1 yields one zero-scored result. -/
theorem C2_whitespace_query_results_witness :
    (∀ c ∈ ([' '] : Str), c.isWhitespace = true) ∧
    ((search (buildIndex [] [['a']] [['t']]) [' '] ((1 : ℕ) : ℤ)).length =
        min 1 ([['a']] : List Str).length ∧
      ∀ r ∈ search (buildIndex [] [['a']] [['t']]) [' '] ((1 : ℕ) : ℤ), r.2.2.2 = 0) :=
  ⟨by decide, C2_whitespace_query_results [] [['a']] [['t']] [' '] 1 (by decide)⟩

/-- C2 counterexample: on the one-document corpus ["a"], calling
`hybrid_search` directly with the empty query and topK = 5 returns one
result, not the empty sequence the claim asserts. -/
theorem C2_counterexample_nonempty :
    (search (buildIndex [] [['a']] [['t']]) [] 5).length = 1 ∧
    search (buildIndex [] [['a']] [['t']]) [] 5 ≠ [] := by
  have h : (search (buildIndex [] [['a']] [['t']]) [] 5).length = 1 := by
    rw [search_buildIndex_length]
    decide
  refine ⟨h, ?_⟩
  intro hnil
  rw [hnil] at h
  simp at h

/-- C3 (amended): a negative topK is not rejected — there is no validation
in `hybrid_search` and Python slicing accepts negative bounds — so
`top_indices[:top_k]` with negative topK drops the last `-topK` ranked
indices and the call returns the first N - min(N, -topK) ranked results
instead of failing. -/
theorem C3_negative_topk_slices (stop documents titles : List Str) (query : Str)
    (top_k : ℤ) (h : top_k < 0) :
    (search (buildIndex stop documents titles) query top_k).length =
      documents.length - (-top_k).toNat := by
  rw [search_buildIndex_length, if_neg (by omega)]

/-- C3 witness: on a two-document corpus, topK = -1 returns 2 - 1 = 1
result. -/
theorem C3_negative_topk_slices_witness :
    ((-1 : ℤ) < 0) ∧
    (search (buildIndex [] [['a'], ['b']] [['a'], ['b']]) [] (-1)).length =
      ([['a'], ['b']] : List Str).length - (-(-1 : ℤ)).toNat :=
  ⟨by decide, C3_negative_topk_slices [] [['a'], ['b']] [['a'], ['b']] [] (-1) (by decide)⟩

/-- C3 counterexample: on the two-document corpus ["a", "b"], topK = -1
produces an ordinary one-element result list — no InvalidArgument error
exists anywhere in this code path. -/
theorem C3_counterexample_returns_list :
    (search (buildIndex [] [['a'], ['b']] [['a'], ['b']]) [] (-1)).length = 1 := by
  rw [search_buildIndex_length]
  decide
